import Mathlib

/-!
# Verification of `kiprec`'s `PreferenceBasedRecommender`

A shallow embedding of `src/kiprec/PreferenceBasedRecommender.py` (the
preference-driven ranking and filter-split engine), together with proofs and
refutations of the specified properties.

Modelling conventions:
* Python dicts are association lists; the first binding of a key is its value.
* Python floats are embedded as `ℚ` where the code is pure arithmetic, and as
  `ℝ` where the code applies `np.log`.
* An IEEE NaN produced by `0/0` is embedded as `none : Option ℚ`.
-/

namespace Kiprec

/-- A course attribute mapping (`course['features']`, built from the raw
`course['attributes']`): a Python dict from attribute name to scalar value. -/
abbrev Attrs := List (String × String)

/-- A trained course record, one entry of `json_model['courses']` as built by
`train` (lines 183-221): id, name, attribute dict, the combined similarity
vector `Sim` (one entry per meta category, canonical order) and the
enrollment `count`. -/
structure Course where
  course_id : Int
  name : String
  features : Attrs
  Sim : List ℚ
  count : Nat
deriving DecidableEq

/-- One entry of `json_model['features']`: an attribute name together with
the list of values observed for it (the attribute schema). -/
structure Feature where
  name : String
  values : List String
deriving DecidableEq

/-- The trained model `json_model` (line 172): meta categories in canonical
order, the attribute schema, and the course table. -/
structure Model where
  meta_categories : List String
  features : List Feature
  courses : List Course
deriving DecidableEq

/-- One honored filter, an element of the `filters` list built by
`recommend` (line 268): `{'name': ..., 'value': ...}`. -/
structure Filter where
  name : String
  value : String
deriving DecidableEq

/-- A preference dict: meta category → raw weight (`preferences`). -/
abbrev Prefs := List (String × ℚ)

/-! ## Preference normalization (`__rank_courses__`, lines 299-309) -/

/-- `sum(preferences.values())` (line 300). -/
def prefTotal (prefs : Prefs) : ℚ :=
  (prefs.map Prod.snd).sum

/-- The `normalization` variable after lines 300-303: the raw sum, replaced
by `1/len(preferences)` when the sum is below `1e-3`. -/
def prefNormalization (prefs : Prefs) : ℚ :=
  if prefTotal prefs < 1/1000 then 1 / (prefs.length : ℚ) else prefTotal prefs

/-- The state of the preferences dict after line 306.  The Python code binds
`normalized_preferences = preferences` (an alias, not a copy) and then
updates every key in place to `value / normalization`, so this is also the
post-call state of the caller-supplied dict. -/
def updatedPreferences (prefs : Prefs) : Prefs :=
  prefs.map (fun kv => (kv.1, kv.2 / prefNormalization prefs))

/-- Dict read `prefs[k]`; the claims under study only read keys that are
present, the `0` default is never exercised there. -/
def lookupQ (prefs : Prefs) (k : String) : ℚ :=
  (prefs.lookup k).getD 0

/-- Line 309: `{key: normalized_preferences[key] for key in
self.model['meta_categories']}` — the normalized dict re-keyed in canonical
meta-category order. -/
def reorderedPreferences (meta : List String) (prefs : Prefs) : Prefs :=
  meta.map (fun k => (k, lookupQ (updatedPreferences prefs) k))

/-- `list(normalized_preferences.values())` (line 327): the normalized
weight vector in canonical meta-category order. -/
def normalizedPrefValues (meta : List String) (prefs : Prefs) : List ℚ :=
  (reorderedPreferences meta prefs).map Prod.snd

/-! ## Filtering (`__filter_courses__`, lines 288-294) -/

/-- `course['features'][filter['name']] == filter['value']` (line 293). -/
def matchesFilter (f : Filter) (c : Course) : Bool :=
  c.features.lookup f.name == some f.value

/-- `__filter_courses__`: for each filter in order, keep only the courses
whose attribute value equals the filter value. -/
def filter_courses (courses : List Course) (filters : List Filter) : List Course :=
  filters.foldl (fun cs f => cs.filter (matchesFilter f)) courses

/-! ## Filter resolution (`recommend`, lines 264-274) -/

/-- Lines 266-272: iterate over the schema features; a feature whose name is
an active-filter key with a schema-recognized value becomes an honored
filter, every other feature name goes to `remaining_features`. -/
def resolveFilters (features : List Feature) (active : List (String × String)) :
    List Filter × List String :=
  match features with
  | [] => ([], [])
  | f :: fs =>
    let rest := resolveFilters fs active
    match active.lookup f.name with
    | some v =>
      if v ∈ f.values then (⟨f.name, v⟩ :: rest.1, rest.2)
      else (rest.1, f.name :: rest.2)
    | none => (rest.1, f.name :: rest.2)

/-! ## Helper lemmas -/

/-- Summing the looked-up value of every key of a dup-free association list
recovers the sum of its values. -/
theorem sum_map_lookupQ (l : Prefs) (h : (l.map Prod.fst).Nodup) :
    ((l.map Prod.fst).map (lookupQ l)).sum = (l.map Prod.snd).sum := by
  induction l with
  | nil => simp
  | cons kv t ih =>
    simp only [List.map_cons, List.nodup_cons] at h ⊢
    rw [List.sum_cons, List.sum_cons]
    have hhead : lookupQ (kv :: t) kv.1 = kv.2 := by
      simp [lookupQ, List.lookup]
    have htail : (t.map Prod.fst).map (lookupQ (kv :: t)) =
        (t.map Prod.fst).map (lookupQ t) := by
      refine List.map_congr_left ?_
      intro k hk
      have hne : k ≠ kv.1 := fun he => h.1 (he ▸ hk)
      simp [lookupQ, List.lookup, beq_false_of_ne hne]
    rw [hhead, htail, ih h.2]

/-- Dividing every element of a list by a constant divides the sum. -/
theorem sum_map_div (l : List ℚ) (c : ℚ) :
    (l.map (fun x => x / c)).sum = l.sum / c := by
  induction l with
  | nil => simp
  | cons x t ih => simp [add_div, ih]

/-! ## Claim C8: FilterEngine identity and conjunction -/

/-- C8: `__filter_courses__` with an empty filter list is the identity;
filtering by `[(a,v)]` and then by `[(b,w)]` equals filtering once by
`[(a,v),(b,w)]`, which keeps exactly the courses matching both pairs by
exact equality. -/
theorem c8_filter_identity_and_conjunction (courses : List Course) (f1 f2 : Filter) :
    filter_courses courses [] = courses ∧
    filter_courses (filter_courses courses [f1]) [f2] = filter_courses courses [f1, f2] ∧
    filter_courses courses [f1, f2] =
      courses.filter (fun c => matchesFilter f1 c && matchesFilter f2 c) := by
  refine ⟨rfl, rfl, ?_⟩
  show (courses.filter (matchesFilter f1)).filter (matchesFilter f2) = _
  rw [List.filter_filter]
  exact List.filter_congr (fun c _ => Bool.and_comm _ _)

/-! ## Claim C9: filter resolution against the schema -/

/-- C9 (amended): the honored filters are exactly the schema features whose
name is an active-filter key with a schema-recognized value, each paired with
that value; the remaining-features list holds exactly the names of all other
schema features.  Consequently an active entry whose name matches no schema
feature is dropped silently: it is neither honored nor recorded anywhere. -/
theorem c9_resolve_filters_schema (features : List Feature)
    (active : List (String × String)) :
    (resolveFilters features active).1 =
      features.filterMap (fun feat =>
        match active.lookup feat.name with
        | some v => if v ∈ feat.values then some ⟨feat.name, v⟩ else none
        | none => none) ∧
    (resolveFilters features active).2 =
      (features.filter (fun feat =>
        match active.lookup feat.name with
        | some v => decide (v ∉ feat.values)
        | none => true)).map Feature.name := by
  induction features with
  | nil => exact ⟨rfl, rfl⟩
  | cons f fs ih =>
    obtain ⟨ih1, ih2⟩ := ih
    cases hl : active.lookup f.name with
    | some v =>
      by_cases hv : v ∈ f.values <;>
        simp [resolveFilters, hl, hv, ih1, ih2, List.filterMap_cons, List.filter_cons]
    | none =>
      simp [resolveFilters, hl, ih1, ih2, List.filterMap_cons, List.filter_cons]

/-- C9 counterexample: with schema `[size ↦ [All, L]]` and applied filter
`color = red`, the entry is not honored, yet `"color"` does *not* appear in
the remaining-features list (only the schema name `"size"` does), refuting
the claim that an unrecognized entry's attribute name is placed there. -/
theorem c9_counterexample :
    (resolveFilters [⟨"size", ["All", "L"]⟩] [("color", "red")]).1 = [] ∧
    "color" ∉ (resolveFilters [⟨"size", ["All", "L"]⟩] [("color", "red")]).2 ∧
    (resolveFilters [⟨"size", ["All", "L"]⟩] [("color", "red")]).2 = ["size"] := by
  decide

/-- C9 witness: a filter with schema-recognized name and value is honored. -/
theorem c9_witness :
    (⟨"size", "L"⟩ : Filter) ∈
      (resolveFilters [⟨"size", ["All", "L"]⟩] [("size", "L")]).1 := by
  rw [(c9_resolve_filters_schema [⟨"size", ["All", "L"]⟩] [("size", "L")]).1]
  decide

/-! ## Claim C2: near-zero preference sums -/

/-- C2: the claim predicts a uniform fallback (`1/num_categories` each) for
an all-zero preference dict, but the code only replaces the *divisor* by
`1/len(preferences)` (line 303), so all-zero weights stay zero: dividing
zero by anything is zero, never `1/2`. -/
theorem c2_zero_prefs_stay_zero :
    normalizedPrefValues ["X", "Y"] [("X", 0), ("Y", 0)] = [0, 0] ∧
    normalizedPrefValues ["X", "Y"] [("X", 0), ("Y", 0)] ≠ [1/2, 1/2] := by
  have h : normalizedPrefValues ["X", "Y"] [("X", 0), ("Y", 0)] = [0, 0] := by
    norm_num [normalizedPrefValues, reorderedPreferences, updatedPreferences,
      prefNormalization, prefTotal, lookupQ, List.lookup,
      show ("Y" == "X") = false from rfl, show ("X" == "X") = true from rfl,
      show ("Y" == "Y") = true from rfl]
  refine ⟨h, ?_⟩
  rw [h]
  norm_num

/-! ## Claim C6: well-behaved preference sums -/

/-- C6: for a preference dict whose keys are exactly the meta categories
(in any order) and whose raw weights sum to at least `1e-3`, the normalized
preference dict is aligned to the canonical meta-category order and its
values sum to `1` within `1e-9` (in exact arithmetic, to exactly `1`). -/
theorem c6_normalizer_sums_to_one (meta : List String) (prefs : Prefs)
    (hm : meta.Nodup) (hp : (prefs.map Prod.fst).Perm meta)
    (hs : 1/1000 ≤ prefTotal prefs) :
    (reorderedPreferences meta prefs).map Prod.fst = meta ∧
    |(normalizedPrefValues meta prefs).sum - 1| ≤ 1/1000000000 := by
  constructor
  · rw [reorderedPreferences, List.map_map]
    have h : (Prod.fst ∘ fun k => (k, lookupQ (updatedPreferences prefs) k)) = id := rfl
    rw [h, List.map_id]
  · have hpos : 0 < prefTotal prefs := lt_of_lt_of_le (by norm_num) hs
    have hnorm : prefNormalization prefs = prefTotal prefs :=
      if_neg (not_lt.mpr hs)
    have hufst : (updatedPreferences prefs).map Prod.fst = prefs.map Prod.fst := by
      rw [updatedPreferences, List.map_map]
      exact List.map_congr_left (fun _ _ => rfl)
    have hval : normalizedPrefValues meta prefs =
        meta.map (lookupQ (updatedPreferences prefs)) := by
      rw [normalizedPrefValues, reorderedPreferences, List.map_map]
      exact List.map_congr_left (fun _ _ => rfl)
    have hperm : (meta.map (lookupQ (updatedPreferences prefs))).Perm
        (((updatedPreferences prefs).map Prod.fst).map
          (lookupQ (updatedPreferences prefs))) := by
      refine List.Perm.map _ ?_
      rw [hufst]
      exact hp.symm
    have hnodup : ((updatedPreferences prefs).map Prod.fst).Nodup := by
      rw [hufst]
      exact (List.Perm.nodup_iff hp).mpr hm
    have husnd : (updatedPreferences prefs).map Prod.snd =
        (prefs.map Prod.snd).map (fun x => x / prefTotal prefs) := by
      rw [updatedPreferences, hnorm, List.map_map, List.map_map]
      exact List.map_congr_left (fun _ _ => rfl)
    have hsum : (normalizedPrefValues meta prefs).sum = 1 := by
      rw [hval, hperm.sum_eq, sum_map_lookupQ _ hnodup, husnd, sum_map_div]
      exact div_self (ne_of_gt hpos)
    rw [hsum]
    norm_num

/-- C6 witness at `meta = [X, Y]`, `prefs = [(Y,1), (X,3)]`. -/
theorem c6_witness :
    (reorderedPreferences ["X", "Y"] [("Y", 1), ("X", 3)]).map Prod.fst = ["X", "Y"] ∧
    |(normalizedPrefValues ["X", "Y"] [("Y", 1), ("X", 3)]).sum - 1| ≤ 1/1000000000 :=
  c6_normalizer_sums_to_one ["X", "Y"] [("Y", 1), ("X", 3)]
    (by decide) (by decide) (by norm_num [prefTotal])

/-! ## Decision tree split (`__decision_tree_split__`, lines 340-398)

The procedure is pure arithmetic over the scores, so it is embedded
generically over a linear ordered field `α` (instantiated at `ℚ` for
concrete evaluation and at `ℝ` inside `recommend`).  A scored course is the
pair of its attribute dict and its score. -/

/-- Attribute read `course['features'][feature_name]` (lines 363, 387);
the schema invariant makes the `""` default unreachable. -/
def featureValue (fs : Attrs) (n : String) : String :=
  (fs.lookup n).getD ""

/-- `counts[value]` (lines 361-366): how many courses carry `value` for the
feature named `n`. -/
def countVal {α : Type} (courses : List (Attrs × α)) (n v : String) : Nat :=
  (courses.filter (fun c => featureValue c.1 n == v)).length

/-- The distinct feature values occurring among the courses, i.e. the key
set of the Python `counts` dict. -/
def distinctVals {α : Type} [DecidableEq String] (courses : List (Attrs × α)) (n : String) :
    List String :=
  ((courses.map (fun c => featureValue c.1 n)).dedup)

/-- Line 371: `counts[value] > 0 & counts[value] < len(courses)`.  Python
parses this as the chained comparison
`counts[value] > (0 & counts[value])  and  (0 & counts[value]) < len(courses)`
because `&` binds tighter than `>` and `<`; the transcription below keeps
the bitwise `&&&`. -/
def nonTrivialChoice {α : Type} (courses : List (Attrs × α)) (n : String) : Bool :=
  (distinctVals courses n).any (fun v =>
    decide (countVal courses n v > (0 &&& countVal courses n v)) &&
    decide ((0 &&& countVal courses n v) < courses.length))

/-- Line 388: the number of courses sharing `c`'s value on feature `n`
whose score strictly exceeds `c`'s score. -/
def courseNumber {α : Type} [LinearOrder α] (courses : List (Attrs × α)) (n : String)
    (c : Attrs × α) : Nat :=
  (courses.filter (fun d =>
    (featureValue d.1 n == featureValue c.1 n) && decide (c.2 < d.2))).length

/-- Lines 385-393: `loss = (sum of score * course_number) / sum_scores`.
(The `min_course_number` variable computed alongside is dead code: it is
never read after the loop.) -/
def lossOf {α : Type} [LinearOrderedField α] (courses : List (Attrs × α)) (n : String)
    (sumScores : α) : α :=
  ((courses.map (fun c => c.2 * (courseNumber courses n c : α))).sum) / sumScores

/-- One iteration of the `for j in range(len(remaining_features))` loop
(lines 353-396) acting on the accumulator `(min_j, min_loss)`, with
`min_loss = none` standing for the initial `float('inf')`. -/
def splitStep {α : Type} [LinearOrderedField α] (courses : List (Attrs × α)) (sumScores : α)
    (acc : Int × Option α) (jf : Nat × String) : Int × Option α :=
  if nonTrivialChoice courses jf.2 then
    match acc.2 with
    | none => ((jf.1 : Int), some (lossOf courses jf.2 sumScores))
    | some ml =>
      if lossOf courses jf.2 sumScores < ml then
        ((jf.1 : Int), some (lossOf courses jf.2 sumScores))
      else acc
  else acc

/-- The loop of lines 353-396, iterating over the remaining features with
their indices. -/
def splitGo {α : Type} [LinearOrderedField α] (courses : List (Attrs × α)) (sumScores : α) :
    Nat → List String → Int × Option α → Int × Option α
  | _, [], acc => acc
  | j, n :: rest, acc => splitGo courses sumScores (j + 1) rest (splitStep courses sumScores acc (j, n))

/-- `__decision_tree_split__`: returns `-1` when the total score is below
`1e-3`, otherwise the index of the considered feature with the strictly
smallest loss (`min_j` stays `-1` if no feature is considered). -/
def decision_tree_split {α : Type} [LinearOrderedField α] (courses : List (Attrs × α))
    (remaining_features : List String) : Int :=
  if (courses.map Prod.snd).sum < 1/1000 then -1
  else (splitGo courses ((courses.map Prod.snd).sum) 0 remaining_features (-1, none)).1

/-! ### Loop invariant for the split selection -/

/-- Invariant of the accumulator after the loop has processed the feature
list `pre`: either nothing was considered yet and the accumulator is still
`(-1, float('inf'))`, or it holds the earliest considered index attaining
the strictly smallest loss so far. -/
def SplitInv {α : Type} [LinearOrderedField α] (courses : List (Attrs × α)) (s : α)
    (pre : List String) (acc : Int × Option α) : Prop :=
  (acc = (-1, none) ∧ ∀ i n, pre.get? i = some n → ¬ nonTrivialChoice courses n = true)
  ∨ (∃ j n, pre.get? j = some n ∧ acc.1 = (j : Int) ∧
      acc.2 = some (lossOf courses n s) ∧ nonTrivialChoice courses n = true ∧
      ∀ i m, pre.get? i = some m → nonTrivialChoice courses m = true →
        (lossOf courses n s ≤ lossOf courses m s ∧
         (i < j → lossOf courses n s < lossOf courses m s)))

/-- Reading an index of `l ++ [x]` hits either `l` or the appended `x`. -/
theorem get?_concat_cases {β : Type} (l : List β) (x : β) (i : Nat) (m : β)
    (h : (l ++ [x]).get? i = some m) :
    l.get? i = some m ∨ (i = l.length ∧ m = x) := by
  rcases lt_trichotomy i l.length with hlt | heq | hgt
  · left
    rwa [List.get?_append hlt] at h
  · right
    subst heq
    rw [List.get?_concat_length] at h
    exact ⟨rfl, (Option.some.inj h).symm⟩
  · exfalso
    have hnone : (l ++ [x]).get? i = none := by
      refine List.get?_eq_none.mpr ?_
      simp only [List.length_append, List.length_singleton]
      omega
    rw [hnone] at h
    cases h

/-- One `splitStep` preserves the invariant. -/
theorem splitStep_inv {α : Type} [LinearOrderedField α] (courses : List (Attrs × α)) (s : α)
    (pre : List String) (acc : Int × Option α) (n : String)
    (h : SplitInv courses s pre acc) :
    SplitInv courses s (pre ++ [n]) (splitStep courses s acc (pre.length, n)) := by
  have hgetn : (pre ++ [n]).get? pre.length = some n := List.get?_concat_length pre n
  have hlift : ∀ i m, pre.get? i = some m → (pre ++ [n]).get? i = some m := by
    intro i m him
    have hi : i < pre.length := (List.get?_eq_some.mp him).1
    rwa [List.get?_append hi]
  by_cases hnt : nonTrivialChoice courses n = true
  · rcases h with ⟨hacc, hnone⟩ | ⟨j, nm, hget, h1, h2, hcons, hall⟩
    · -- nothing considered yet: `n` becomes the current minimum
      refine Or.inr ⟨pre.length, n, hgetn, ?_, ?_, hnt, ?_⟩
      · rw [hacc]
        simp [splitStep, hnt]
      · rw [hacc]
        simp [splitStep, hnt]
      · intro i m him hcm
        rcases get?_concat_cases pre n i m him with hin | ⟨hi, hm⟩
        · exact absurd hcm (hnone i m hin)
        · subst hm
          exact ⟨le_refl _, fun hlt => absurd hi (Nat.ne_of_lt hlt)⟩
    · -- a current minimum `nm` at index `j` exists; compare losses
      have hj : j < pre.length := (List.get?_eq_some.mp hget).1
      have hstep : splitStep courses s acc (pre.length, n) =
          if lossOf courses n s < lossOf courses nm s then
            ((pre.length : Int), some (lossOf courses n s))
          else acc := by
        simp [splitStep, hnt, h2]
      by_cases hlt : lossOf courses n s < lossOf courses nm s
      · rw [hstep, if_pos hlt]
        refine Or.inr ⟨pre.length, n, hgetn, rfl, rfl, hnt, ?_⟩
        intro i m him hcm
        rcases get?_concat_cases pre n i m him with hin | ⟨hi, hm⟩
        · have hle := (hall i m hin hcm).1
          exact ⟨le_of_lt (lt_of_lt_of_le hlt hle), fun _ => lt_of_lt_of_le hlt hle⟩
        · subst hm
          exact ⟨le_refl _, fun hcontra => absurd hi (Nat.ne_of_lt hcontra)⟩
      · rw [hstep, if_neg hlt]
        refine Or.inr ⟨j, nm, hlift j nm hget, h1, h2, hcons, ?_⟩
        intro i m him hcm
        rcases get?_concat_cases pre n i m him with hin | ⟨hi, hm⟩
        · exact hall i m hin hcm
        · subst hm
          refine ⟨not_lt.mp hlt, fun hcontra => ?_⟩
          exfalso
          omega
  · -- `n` is skipped: the accumulator is unchanged
    have hstep : splitStep courses s acc (pre.length, n) = acc := by
      simp [splitStep, hnt]
    rw [hstep]
    rcases h with ⟨hacc, hnone⟩ | ⟨j, nm, hget, h1, h2, hcons, hall⟩
    · refine Or.inl ⟨hacc, ?_⟩
      intro i m him
      rcases get?_concat_cases pre n i m him with hin | ⟨_, hm⟩
      · exact hnone i m hin
      · subst hm
        exact hnt
    · refine Or.inr ⟨j, nm, hlift j nm hget, h1, h2, hcons, ?_⟩
      intro i m him hcm
      rcases get?_concat_cases pre n i m him with hin | ⟨_, hm⟩
      · exact hall i m hin hcm
      · subst hm
        exact absurd hcm hnt

/-- The loop `splitGo` preserves the invariant across the whole tail. -/
theorem splitGo_inv {α : Type} [LinearOrderedField α] (courses : List (Attrs × α)) (s : α)
    (tail : List String) :
    ∀ (pre : List String) (acc : Int × Option α), SplitInv courses s pre acc →
      SplitInv courses s (pre ++ tail) (splitGo courses s pre.length tail acc) := by
  induction tail with
  | nil =>
    intro pre acc h
    rw [List.append_nil]
    exact h
  | cons n rest ih =>
    intro pre acc h
    have hstep := splitStep_inv courses s pre acc n h
    have := ih (pre ++ [n]) (splitStep courses s acc (pre.length, n)) hstep
    rw [List.length_append, List.length_singleton] at this
    rw [show pre ++ n :: rest = (pre ++ [n]) ++ rest by simp]
    exact this

/-! ## Claim C10: split selection returns a sentinel or an earliest argmin -/

/-- C10: `__decision_tree_split__` returns `-1` or an index into the
candidate list; it returns `-1` whenever the summed score is below `1e-3`;
and a non-negative result names a considered (non-trivial) candidate whose
loss is minimal among all considered candidates, every earlier considered
candidate having strictly larger loss. -/
theorem c10_split_returns_earliest_argmin {α : Type} [LinearOrderedField α]
    (courses : List (Attrs × α)) (remaining_features : List String) :
    (decision_tree_split courses remaining_features = -1 ∨
      ∃ j : Nat, decision_tree_split courses remaining_features = (j : Int) ∧
        j < remaining_features.length) ∧
    ((courses.map Prod.snd).sum < 1/1000 →
      decision_tree_split courses remaining_features = -1) ∧
    (∀ j : Nat, decision_tree_split courses remaining_features = (j : Int) →
      ∃ n, remaining_features.get? j = some n ∧ nonTrivialChoice courses n = true ∧
        ∀ i m, remaining_features.get? i = some m → nonTrivialChoice courses m = true →
          (lossOf courses n ((courses.map Prod.snd).sum) ≤
             lossOf courses m ((courses.map Prod.snd).sum) ∧
           (i < j → lossOf courses n ((courses.map Prod.snd).sum) <
             lossOf courses m ((courses.map Prod.snd).sum)))) := by
  by_cases hs : (courses.map Prod.snd).sum < 1/1000
  · have hr : decision_tree_split courses remaining_features = -1 := by
      simp only [decision_tree_split]
      rw [if_pos hs]
    refine ⟨Or.inl hr, fun _ => hr, ?_⟩
    intro j hj
    rw [hr] at hj
    exfalso
    omega
  · have hr : decision_tree_split courses remaining_features =
        (splitGo courses ((courses.map Prod.snd).sum) 0 remaining_features (-1, none)).1 := by
      simp only [decision_tree_split]
      rw [if_neg hs]
    have hbase : SplitInv courses ((courses.map Prod.snd).sum) ([] : List String) (-1, none) := by
      refine Or.inl ⟨rfl, ?_⟩
      intro i n h
      simp at h
    have hinv := splitGo_inv courses ((courses.map Prod.snd).sum) remaining_features [] (-1, none) hbase
    simp only [List.length_nil, List.nil_append] at hinv
    rcases hinv with ⟨hacc, _⟩ | ⟨j, nm, hget, h1, _, hcons, hall⟩
    · have hr1 : decision_tree_split courses remaining_features = -1 := by
        rw [hr, hacc]
      refine ⟨Or.inl hr1, fun hcontra => absurd hcontra hs, ?_⟩
      intro j hj
      rw [hr1] at hj
      exfalso
      omega
    · have hr1 : decision_tree_split courses remaining_features = (j : Int) := by
        rw [hr, h1]
      have hjlt : j < remaining_features.length := (List.get?_eq_some.mp hget).1
      refine ⟨Or.inr ⟨j, hr1, hjlt⟩, fun hcontra => absurd hcontra hs, ?_⟩
      intro j' hj'
      have hjj : j = j' := by
        rw [hr1] at hj'
        omega
      subst hjj
      exact ⟨nm, hget, hcons, hall⟩

/-- C10 witness: two courses with attributes `a ∈ \x7b1, 2\x7d` (fully
separating) and `b = x` (uniform), scores `1` and `2`: the split picks
index 1, attribute `a`, whose loss `0` beats attribute `b`'s loss `1/3`. -/
theorem c10_witness :
    decision_tree_split
      [([("a", "1"), ("b", "x")], (1 : ℚ)), ([("a", "2"), ("b", "x")], 2)]
      ["b", "a"] = (1 : Int) ∧
    lossOf [([("a", "1"), ("b", "x")], (1 : ℚ)), ([("a", "2"), ("b", "x")], 2)] "a"
        ((([([("a", "1"), ("b", "x")], (1 : ℚ)), ([("a", "2"), ("b", "x")], 2)].map Prod.snd)).sum) ≤
      lossOf [([("a", "1"), ("b", "x")], (1 : ℚ)), ([("a", "2"), ("b", "x")], 2)] "b"
        ((([([("a", "1"), ("b", "x")], (1 : ℚ)), ([("a", "2"), ("b", "x")], 2)].map Prod.snd)).sum) := by
  have hsplit : decision_tree_split
      [([("a", "1"), ("b", "x")], (1 : ℚ)), ([("a", "2"), ("b", "x")], 2)]
      ["b", "a"] = (1 : Int) := by
    norm_num [decision_tree_split, splitGo, splitStep, nonTrivialChoice, distinctVals,
      countVal, courseNumber, lossOf, featureValue, List.lookup, List.dedup_cons_of_mem,
      List.dedup_cons_of_not_mem, List.filter,
      show ("b" == "a") = false from rfl, show ("a" == "a") = true from rfl,
      show ("a" == "b") = false from rfl, show ("b" == "b") = true from rfl,
      show ("x" == "x") = true from rfl, show ("1" == "1") = true from rfl,
      show ("2" == "2") = true from rfl, show ("2" == "1") = false from rfl,
      show ("1" == "2") = false from rfl, show ("price" == "price") = true from rfl,
      show ("free" == "free") = true from rfl,
      Option.getD]
  refine ⟨hsplit, ?_⟩
  obtain ⟨n, hget, -, hall⟩ :=
    (c10_split_returns_earliest_argmin
      [([("a", "1"), ("b", "x")], (1 : ℚ)), ([("a", "2"), ("b", "x")], 2)] ["b", "a"]).2.2
      1 hsplit
  have hn : n = "a" := by
    simp [List.get?] at hget
    exact hget.symm
  subst hn
  exact (hall 0 "b" rfl (by
    norm_num [nonTrivialChoice, distinctVals, countVal, featureValue, List.lookup,
      List.dedup_cons_of_mem, List.dedup_cons_of_not_mem, List.filter,
      show ("b" == "a") = false from rfl, show ("a" == "a") = true from rfl,
      show ("a" == "b") = false from rfl, show ("b" == "b") = true from rfl,
      show ("x" == "x") = true from rfl, show ("1" == "1") = true from rfl,
      show ("2" == "2") = true from rfl, show ("2" == "1") = false from rfl,
      show ("1" == "2") = false from rfl, show ("price" == "price") = true from rfl,
      show ("free" == "free") = true from rfl,
      Option.getD])).1

/-! ## Claim C1: trivial attributes are (not) skipped -/

/-- C1: the claim says a uniformly-valued candidate attribute is skipped and
the sentinel `-1` returned; but line 371's `counts[value] > 0 &
counts[value] < len(courses)` chains through the bitwise `0 & counts[value]
= 0`, so it is true whenever any course exists, the uniform attribute
`price` is considered anyway, and its index `0` is returned instead of
`-1`. -/
theorem c1_uniform_attribute_not_skipped :
    nonTrivialChoice [([("price", "free")], (1 : ℚ)), ([("price", "free")], 1)] "price" = true ∧
    decision_tree_split [([("price", "free")], (1 : ℚ)), ([("price", "free")], 1)]
      ["price"] = 0 := by
  constructor
  · norm_num [nonTrivialChoice, distinctVals, countVal, featureValue, List.lookup,
      List.dedup_cons_of_mem, List.dedup_cons_of_not_mem, List.filter,
      show ("b" == "a") = false from rfl, show ("a" == "a") = true from rfl,
      show ("a" == "b") = false from rfl, show ("b" == "b") = true from rfl,
      show ("x" == "x") = true from rfl, show ("1" == "1") = true from rfl,
      show ("2" == "2") = true from rfl, show ("2" == "1") = false from rfl,
      show ("1" == "2") = false from rfl, show ("price" == "price") = true from rfl,
      show ("free" == "free") = true from rfl,
      Option.getD]
  · norm_num [decision_tree_split, splitGo, splitStep, nonTrivialChoice, distinctVals,
      countVal, courseNumber, lossOf, featureValue, List.lookup, List.dedup_cons_of_mem,
      List.dedup_cons_of_not_mem, List.filter,
      show ("b" == "a") = false from rfl, show ("a" == "a") = true from rfl,
      show ("a" == "b") = false from rfl, show ("b" == "b") = true from rfl,
      show ("x" == "x") = true from rfl, show ("1" == "1") = true from rfl,
      show ("2" == "2") = true from rfl, show ("2" == "1") = false from rfl,
      show ("1" == "2") = false from rfl, show ("price" == "price") = true from rfl,
      show ("free" == "free") = true from rfl,
      Option.getD]

/-! ## Similarity pre-normalization (`train`, lines 160-169) -/

/-- `np.nanmin` over a nonempty list (the matrices under study contain no
NaN, so `nanmin` is plain `min`; the `0` default for an empty matrix is
never reached, `np.nanmin` of an empty array being an error anyway). -/
def listMin (l : List ℚ) : ℚ :=
  match l with
  | [] => 0
  | x :: xs => xs.foldl min x

/-- `np.nanmax` over a nonempty list. -/
def listMax (l : List ℚ) : ℚ :=
  match l with
  | [] => 0
  | x :: xs => xs.foldl max x

/-- `lo = np.nanmin(Sims[k])` (line 163): global minimum of one similarity
channel over all courses and meta categories. -/
def chanMin (ch : List (List ℚ)) : ℚ := listMin ch.flatten

/-- `hi = np.nanmax(Sims[k])` (line 164). -/
def chanMax (ch : List (List ℚ)) : ℚ := listMax ch.flatten

/-- Line 166: `Sims[k] = (Sims[k] - lo) / (hi - lo)`, elementwise over the
channel matrix.  There is no zero-width guard in the code: when `hi = lo`
every entry `x` of the channel equals `lo`, so IEEE arithmetic yields
`0/0 = NaN` for every entry, embedded here as `none`. -/
def normalizeChannel (ch : List (List ℚ)) : List (List (Option ℚ)) :=
  ch.map (fun row => row.map (fun x =>
    if chanMax ch - chanMin ch = 0 then none
    else some ((x - chanMin ch) / (chanMax ch - chanMin ch))))

/-! ## Claim C4: channel rescaling and the zero-width range -/

/-- C4 (amended): each similarity channel is independently rescaled by
`(value - min) / (max - min)` with that channel's global min and max; the
operation is total (numpy emits no exception), but when `max = min` every
entry of the channel becomes NaN (`none`), not zero. -/
theorem c4_channel_rescale (ch : List (List ℚ)) :
    (chanMax ch ≠ chanMin ch →
      normalizeChannel ch = ch.map (fun row => row.map (fun x =>
        some ((x - chanMin ch) / (chanMax ch - chanMin ch))))) ∧
    (chanMax ch = chanMin ch →
      normalizeChannel ch = ch.map (fun row => row.map (fun _ => none))) := by
  constructor
  · intro h
    have hne : chanMax ch - chanMin ch ≠ 0 := sub_ne_zero.mpr h
    simp [normalizeChannel, hne]
  · intro h
    have heq : chanMax ch - chanMin ch = 0 := sub_eq_zero.mpr h
    simp [normalizeChannel, heq]

/-- C4 counterexample: a channel with zero-width range (`Scat` when the
catalog has no categories is all zeros) normalizes to NaN everywhere, not
to zero as claimed. -/
theorem c4_counterexample :
    normalizeChannel [[0, 0]] = [[none, none]] ∧
    normalizeChannel [[0, 0]] ≠ [[some 0, some 0]] := by
  have h : normalizeChannel [[0, 0]] = [[none, none]] := by
    norm_num [normalizeChannel, chanMin, chanMax, listMin, listMax, List.flatten,
      List.replicate_succ, List.replicate_zero]
  refine ⟨h, ?_⟩
  rw [h]
  simp

/-- C4 witness: both branches of the amended statement at concrete
channels. -/
theorem c4_witness :
    normalizeChannel [[0, 1]] = [[0, 1]].map (fun row => row.map (fun x =>
      some ((x - chanMin [[0, 1]]) / (chanMax [[0, 1]] - chanMin [[0, 1]])))) ∧
    normalizeChannel [[0, 0]] = [[0, 0]].map (fun row => row.map (fun _ => none)) :=
  ⟨(c4_channel_rescale [[0, 1]]).1 (by
      norm_num [chanMin, chanMax, listMin, listMax, List.flatten]),
   (c4_channel_rescale [[0, 0]]).2 (by
      norm_num [chanMin, chanMax, listMin, listMax, List.flatten])⟩

/-! ## Scoring and ranking (`__rank_courses__`, lines 311-338)

Scores involve `np.log`, so they live in `ℝ`; similarity values and
preference weights stay in `ℚ`. -/

/-- `_LAMBDA_ = np.log(10) * 10` (line 330). -/
noncomputable def LAMBDA : ℝ := Real.log 10 * 10

/-- One entry of the `ranked_courses` list (lines 314-319). -/
structure RankedCourse where
  course_id : Int
  name : String
  features : Attrs
  sim : ℚ
  score : ℝ

/-- The descending-by-score comparison used by
`sorted(..., key=lambda k: k['score'], reverse=True)` (line 336). -/
def scoreGE (a b : RankedCourse) : Prop := b.score ≤ a.score

noncomputable instance : DecidableRel scoreGE :=
  fun a b => inferInstanceAs (Decidable (b.score ≤ a.score))

instance : IsTotal RankedCourse scoreGE := ⟨fun a b => le_total b.score a.score⟩

instance : IsTrans RankedCourse scoreGE := ⟨fun _ _ _ h1 h2 => le_trans h2 h1⟩

/-- Lines 326-327: the dot product of a similarity vector with the
normalized preference values, in canonical order.  (The model invariant
makes both vectors the same length.) -/
def simOf (simvec weights : List ℚ) : ℚ :=
  (List.zipWith (fun a b => a * b) simvec weights).sum

/-- Line 331: `score = LAMBDA * sim + log(count + 1)`. -/
noncomputable def scoreOf (s : ℚ) (count : Nat) : ℝ :=
  LAMBDA * (s : ℝ) + Real.log ((count : ℝ) + 1)

/-- The ids present in the trained model (line 321's membership test; every
stored course has a `course_id` key). -/
def modelIds (m : Model) : List Int :=
  m.courses.map Course.course_id

/-- Lines 313-333, one course: an id absent from the model keeps
`sim = 0, score = 0`; otherwise the *first* stored course with that id
(`list.index`) supplies the similarity vector and count. -/
noncomputable def rankOne (m : Model) (weights : List ℚ) (c : Course) : RankedCourse :=
  match m.courses.find? (fun d => d.course_id == c.course_id) with
  | none => ⟨c.course_id, c.name, c.features, 0, 0⟩
  | some d =>
    ⟨c.course_id, c.name, c.features, simOf d.Sim weights,
      scoreOf (simOf d.Sim weights) d.count⟩

/-- `__rank_courses__`: score every course, then stable-sort descending by
score (Python's `sorted` is stable; `List.insertionSort` with `scoreGE`
places an earlier element before a later one of equal score, matching it). -/
noncomputable def rank_courses (m : Model) (courses : List Course) (prefs : Prefs) :
    List RankedCourse :=
  List.insertionSort scoreGE
    (courses.map (rankOne m (normalizedPrefValues m.meta_categories prefs)))

/-! ## The `recommend` orchestration (lines 227-286) -/

/-- The values returned by `recommend`, plus the post-call state of the
caller-supplied preferences dict (which line 306 updates in place through
the alias `normalized_preferences`). -/
structure RecommendResult where
  filters : List Filter
  remaining_features : List String
  courses : List RankedCourse
  split_index : Int
  preferences_after : Prefs

/-- `recommend`: resolve the active filters against the schema (or take
every feature as remaining when `active_filters is None`), filter, rank,
and select the next split attribute. -/
noncomputable def recommend (m : Model) (prefs : Prefs)
    (active : Option (List (String × String))) : RecommendResult :=
  let fr := match active with
    | some a => resolveFilters m.features a
    | none => (([] : List Filter), m.features.map Feature.name)
  let ranked := rank_courses m (filter_courses m.courses fr.1) prefs
  ⟨fr.1, fr.2, ranked,
    decision_tree_split (ranked.map (fun c => (c.features, c.score))) fr.2,
    updatedPreferences prefs⟩

/-! ### Helper lemmas about `rankOne` -/

/-- `rankOne` on an id found in the model. -/
theorem rankOne_found (m : Model) (w : List ℚ) (c d : Course)
    (h : m.courses.find? (fun e => e.course_id == c.course_id) = some d) :
    rankOne m w c =
      ⟨c.course_id, c.name, c.features, simOf d.Sim w, scoreOf (simOf d.Sim w) d.count⟩ := by
  unfold rankOne
  rw [h]

/-- `rankOne` on an id absent from the model. -/
theorem rankOne_notfound (m : Model) (w : List ℚ) (c : Course)
    (h : m.courses.find? (fun e => e.course_id == c.course_id) = none) :
    rankOne m w c = ⟨c.course_id, c.name, c.features, 0, 0⟩ := by
  unfold rankOne
  rw [h]

/-- `rankOne` preserves the course id. -/
theorem rankOne_id (m : Model) (w : List ℚ) (c : Course) :
    (rankOne m w c).course_id = c.course_id := by
  unfold rankOne
  cases h : m.courses.find? (fun e => e.course_id == c.course_id) <;> rfl

/-- An id outside `modelIds` is never found. -/
theorem find?_none_of_unknown (m : Model) (c : Course)
    (h : c.course_id ∉ modelIds m) :
    m.courses.find? (fun e => e.course_id == c.course_id) = none := by
  refine List.find?_eq_none.mpr ?_
  intro d hd
  simp only [beq_iff_eq]
  intro he
  exact h (by rw [← he]; exact List.mem_map_of_mem Course.course_id hd)

/-! ## Claim C3: recommend is deterministic but mutates the preferences -/

/-- C3 (amended): the embedding of `recommend` is a pure function of the
model, the preferences and the active filters (determinism), and it never
writes the stored model; but the caller-supplied preferences dict does not
survive the call unchanged: every raw weight is replaced in place by
`weight / normalization` (through the alias created at line 305). -/
theorem c3_recommend_deterministic_but_mutating (m : Model) (prefs : Prefs)
    (active : Option (List (String × String))) :
    recommend m prefs active = recommend m prefs active ∧
    (recommend m prefs active).preferences_after =
      prefs.map (fun kv => (kv.1, kv.2 / prefNormalization prefs)) :=
  ⟨rfl, rfl⟩

/-- C3 counterexample: with preferences `[("X", 2)]` the dict after the call
holds `[("X", 1)]`, not the original `[("X", 2)]` — the caller-supplied
mapping is *not* unchanged. -/
theorem c3_counterexample :
    (recommend ⟨["X"], [], []⟩ [("X", 2)] none).preferences_after ≠ [("X", 2)] := by
  have h : (recommend ⟨["X"], [], []⟩ [("X", 2)] none).preferences_after = [("X", 1)] := by
    show updatedPreferences [("X", 2)] = [("X", 1)]
    norm_num [updatedPreferences, prefNormalization, prefTotal]
  rw [h]
  norm_num

/-! ## Claim C5: the scoring formula and the two-course scenario -/

/-- Scenario course `A`: similarity `[1, 0]`, popularity `0`. -/
def courseA : Course := ⟨1, "A", [], [1, 0], 0⟩

/-- Scenario course `B`: similarity `[0, 1]`, popularity `100`. -/
def courseB : Course := ⟨2, "B", [], [0, 1], 100⟩

/-- Scenario model with `meta_categories = ['X', 'Y']`. -/
def modelAB : Model := ⟨["X", "Y"], [], [courseA, courseB]⟩

/-- Scenario preferences `\x7bX: 1, Y: 0\x7d`. -/
def prefsXY : Prefs := [("X", 1), ("Y", 0)]

/-- `log 101 ≤ LAMBDA = 10 log 10 = log 10^10`. -/
theorem log_101_le_LAMBDA : Real.log 101 ≤ LAMBDA := by
  have h1 : Real.log 101 ≤ Real.log (10 ^ 10) := by
    refine (Real.log_le_log_iff (by norm_num) (by norm_num)).mpr ?_
    norm_num
  rw [Real.log_pow] at h1
  calc Real.log 101 ≤ (10 : ℕ) * Real.log 10 := h1
    _ = LAMBDA := by rw [LAMBDA]; push_cast; ring

/-- C5: a course found in the model is scored
`LAMBDA * sim + log(count + 1)` with `sim` the dot product of its stored
similarity vector with the weight vector; and in the scenario
(`A(sim=[1,0], pop=0)`, `B(sim=[0,1], pop=100)`, preferences `[1, 0]`)
`A` scores `LAMBDA`, `B` scores `log 101`, and the ranking is `[A, B]`. -/
theorem c5_score_formula_and_scenario :
    (∀ (m : Model) (w : List ℚ) (c d : Course),
      m.courses.find? (fun e => e.course_id == c.course_id) = some d →
      (rankOne m w c).sim = simOf d.Sim w ∧
      (rankOne m w c).score = LAMBDA * ((simOf d.Sim w : ℚ) : ℝ) +
        Real.log ((d.count : ℝ) + 1)) ∧
    rank_courses modelAB [courseA, courseB] prefsXY =
      [⟨1, "A", [], 1, LAMBDA⟩, ⟨2, "B", [], 0, Real.log 101⟩] := by
  constructor
  · intro m w c d h
    rw [rankOne_found m w c d h]
    exact ⟨rfl, rfl⟩
  · have hw : normalizedPrefValues modelAB.meta_categories prefsXY = [1, 0] := by
      norm_num [modelAB, normalizedPrefValues, reorderedPreferences, updatedPreferences,
        prefNormalization, prefTotal, lookupQ, List.lookup, prefsXY,
        show ("Y" == "X") = false from rfl, show ("X" == "X") = true from rfl,
        show ("Y" == "Y") = true from rfl]
    have hA : rankOne modelAB [1, 0] courseA = ⟨1, "A", [], 1, LAMBDA⟩ := by
      have hfind : modelAB.courses.find? (fun e => e.course_id == courseA.course_id) =
          some courseA := rfl
      rw [rankOne_found modelAB [1, 0] courseA courseA hfind]
      have hsim : simOf courseA.Sim [1, 0] = 1 := by
        norm_num [courseA, simOf]
      rw [hsim]
      have hscore : scoreOf 1 courseA.count = LAMBDA := by
        rw [scoreOf]
        norm_num [courseA, Real.log_one]
      rw [hscore]
      rfl
    have hB : rankOne modelAB [1, 0] courseB = ⟨2, "B", [], 0, Real.log 101⟩ := by
      have hfind : modelAB.courses.find? (fun e => e.course_id == courseB.course_id) =
          some courseB := rfl
      rw [rankOne_found modelAB [1, 0] courseB courseB hfind]
      have hsim : simOf courseB.Sim [1, 0] = 0 := by
        norm_num [courseB, simOf]
      rw [hsim]
      have hscore : scoreOf 0 courseB.count = Real.log 101 := by
        rw [scoreOf]
        norm_num [courseB]
      rw [hscore]
      rfl
    show List.insertionSort scoreGE
        ([courseA, courseB].map (rankOne modelAB
          (normalizedPrefValues modelAB.meta_categories prefsXY))) = _
    rw [hw, List.map_cons, List.map_cons, List.map_nil, hA, hB]
    have hge : scoreGE (⟨1, "A", [], 1, LAMBDA⟩ : RankedCourse)
        (⟨2, "B", [], 0, Real.log 101⟩ : RankedCourse) := log_101_le_LAMBDA
    simp [List.insertionSort, List.orderedInsert, hge]

/-- C5 witness: the general formula applied to scenario course `B`. -/
theorem c5_witness :
    (rankOne modelAB [1, 0] courseB).sim = simOf courseB.Sim [1, 0] ∧
    (rankOne modelAB [1, 0] courseB).score =
      LAMBDA * ((simOf courseB.Sim [1, 0] : ℚ) : ℝ) +
        Real.log ((courseB.count : ℝ) + 1) :=
  c5_score_formula_and_scenario.1 modelAB [1, 0] courseB courseB rfl

/-! ## Claim C7: unknown items get zero and sort last -/

/-- C7: a queried course whose id is absent from the trained model is kept
in the ranked output (no error: the output has one entry per input) with
`sim = 0` and `score = 0`; and whenever every known entry has positive
score, no known entry appears after an unknown one in the
descending-by-score order. -/
theorem c7_unknown_courses_zero_and_last (m : Model) (cs : List Course) (prefs : Prefs) :
    (rank_courses m cs prefs).length = cs.length ∧
    (∀ c ∈ cs, c.course_id ∉ modelIds m →
      ∃ rc ∈ rank_courses m cs prefs,
        rc.course_id = c.course_id ∧ rc.name = c.name ∧ rc.sim = 0 ∧ rc.score = 0) ∧
    ((∀ rc ∈ rank_courses m cs prefs, rc.course_id ∈ modelIds m → 0 < rc.score) →
      List.Pairwise
        (fun a b => b.course_id ∈ modelIds m → a.course_id ∈ modelIds m)
        (rank_courses m cs prefs)) := by
  have hperm : (rank_courses m cs prefs).Perm
      (cs.map (rankOne m (normalizedPrefValues m.meta_categories prefs))) :=
    List.perm_insertionSort scoreGE _
  have hmem : ∀ rc ∈ rank_courses m cs prefs,
      ∃ c ∈ cs, rc = rankOne m (normalizedPrefValues m.meta_categories prefs) c := by
    intro rc hrc
    have := hperm.mem_iff.mp hrc
    obtain ⟨c, hc, he⟩ := List.mem_map.mp this
    exact ⟨c, hc, he.symm⟩
  have hzero : ∀ rc ∈ rank_courses m cs prefs,
      rc.course_id ∉ modelIds m → rc.sim = 0 ∧ rc.score = 0 := by
    intro rc hrc hun
    obtain ⟨c, _, he⟩ := hmem rc hrc
    have hid : rc.course_id = c.course_id := by rw [he, rankOne_id]
    have hnf := find?_none_of_unknown m c (hid ▸ hun)
    rw [he, rankOne_notfound m _ c hnf]
    exact ⟨rfl, rfl⟩
  refine ⟨?_, ?_, ?_⟩
  · rw [hperm.length_eq, List.length_map]
  · intro c hc hun
    refine ⟨rankOne m (normalizedPrefValues m.meta_categories prefs) c, ?_, ?_⟩
    · exact hperm.mem_iff.mpr (List.mem_map_of_mem _ hc)
    · rw [rankOne_notfound m _ c (find?_none_of_unknown m c hun)]
      exact ⟨rfl, rfl, rfl, rfl⟩
  · intro hpos
    have hsorted : List.Sorted scoreGE (rank_courses m cs prefs) :=
      List.sorted_insertionSort scoreGE _
    refine hsorted.imp_of_mem ?_
    intro a b ha hb hab hkb
    by_contra hka
    have hsa : a.score = 0 := (hzero a ha hka).2
    have hsb : 0 < b.score := hpos b hb hkb
    have : b.score ≤ a.score := hab
    rw [hsa] at this
    exact absurd (lt_of_lt_of_le hsb this) (lt_irrefl 0)

/-- Witness fixture: the known course of the C7 scenario. -/
def courseK : Course := ⟨1, "K", [], [1], 0⟩

/-- Witness fixture: a course unknown to the model. -/
def courseU : Course := ⟨2, "U", [], [], 0⟩

/-- Witness fixture: a model knowing only `courseK`. -/
def modelK : Model := ⟨["X"], [], [courseK]⟩

/-- Witness fixture: preferences fully on `X`. -/
def prefsX : Prefs := [("X", 1)]

/-- C7 witness: ranking `[U, K]` against a model knowing only `K` keeps the
unknown course with zero sim and score, and (because `K`'s score `LAMBDA`
is positive) no known course follows an unknown one. -/
theorem c7_witness :
    (∃ rc ∈ rank_courses modelK [courseU, courseK] prefsX,
      rc.course_id = 2 ∧ rc.name = "U" ∧ rc.sim = 0 ∧ rc.score = 0) ∧
    List.Pairwise
      (fun a b => b.course_id ∈ modelIds modelK → a.course_id ∈ modelIds modelK)
      (rank_courses modelK [courseU, courseK] prefsX) := by
  have h := c7_unknown_courses_zero_and_last modelK [courseU, courseK] prefsX
  have hw : normalizedPrefValues modelK.meta_categories prefsX = [1] := by
    norm_num [modelK, normalizedPrefValues, reorderedPreferences, updatedPreferences,
      prefNormalization, prefTotal, lookupQ, List.lookup, prefsX,
      show ("X" == "X") = true from rfl]
  have hLAMBDA : (0 : ℝ) < LAMBDA := by
    rw [LAMBDA]
    exact mul_pos (Real.log_pos (by norm_num)) (by norm_num)
  refine ⟨h.2.1 courseU (List.mem_cons_self _ _) (by decide), h.2.2 ?_⟩
  intro rc hrc hk
  have hperm : (rank_courses modelK [courseU, courseK] prefsX).Perm
      ([courseU, courseK].map (rankOne modelK
        (normalizedPrefValues modelK.meta_categories prefsX))) :=
    List.perm_insertionSort scoreGE _
  have := hperm.mem_iff.mp hrc
  obtain ⟨c, hc, he⟩ := List.mem_map.mp this
  simp only [List.mem_cons, List.mem_singleton, List.not_mem_nil, or_false] at hc
  rcases hc with rfl | rfl
  · exact absurd hk (by rw [← he, rankOne_id]; decide)
  · have hfind : modelK.courses.find? (fun e => e.course_id == courseK.course_id) =
        some courseK := rfl
    rw [← he, rankOne_found modelK _ courseK courseK hfind, hw]
    have hsim : simOf courseK.Sim [1] = 1 := by norm_num [courseK, simOf]
    rw [hsim]
    show (0 : ℝ) < scoreOf 1 courseK.count
    rw [scoreOf]
    norm_num [courseK, Real.log_one]
    exact hLAMBDA

end Kiprec
